import Mathlib

/-!
# PyOdin Web — verification of the spec's claims against the source

Shallow embedding of the core of the `pyodinweb` repository (an Odin/Loke
firmware flasher running over WebUSB): the little-endian framing codec
(`src/js/utils.js`), the PIT codec (`src/js/pit-parser.js`), the handshake,
PIT receive, partition matcher and transfer pipeline of
`src/js/download-engine.js`, the TAR member parsers of `src/js/app.js`,
and the streaming LZ4 block decoder of `src/js/lz4-streaming.js`.

Byte strings are modelled as `List Nat` (each element a byte value `< 256`
wherever the code produces one); JavaScript 32-bit integer wrap-around is
explicit `% 2 ^ 32`.  Fallible code returns `Except String`.
-/

namespace PyOdinWeb

/-! ## Framing codec (`src/js/utils.js`) -/

/-- Little-endian byte decomposition used by `numberToLE`: byte `i` of the
JS loop is `(num >> (i*8)) & 0xFF` after `ToInt32` wrap-around, i.e. the
successive base-256 digits of `num % 2^32`.  (The JS function is only ever
called with `bytes ∈ {1, 2, 4}`, where this model is exact.) -/
def leBytes (m : Nat) : Nat → List Nat
  | 0 => []
  | n + 1 => m % 256 :: leBytes (m / 256) n

/-- `numberToLE(num, bytes)` from `utils.js`: `bytes` little-endian bytes of
`num` after JavaScript 32-bit truncation. -/
def numberToLE (num bytes : Nat) : List Nat :=
  leBytes (num % 2 ^ 32) bytes

/-- Accumulator of the `LEToNumber` loop: `num |= arr[offset+i] << (i*8)`
summed for `i < bytes` (the OR is addition on the disjoint bit ranges that
occur for `bytes ≤ 4`, the only widths the code uses). -/
def leAcc (arr : List Nat) (offset : Nat) : Nat → Nat
  | 0 => 0
  | n + 1 => leAcc arr offset n + arr.getD (offset + n) 0 * 2 ^ (8 * n)

/-- `LEToNumber(arr, offset, bytes)` from `utils.js`, with the trailing
`>>> 0` unsigned conversion as `% 2^32`. -/
def LEToNumber (arr : List Nat) (offset bytes : Nat) : Nat :=
  leAcc arr offset bytes % 2 ^ 32

/-- `structPack('<III', a, b, c)`. -/
def structPackIII (a b c : Nat) : List Nat :=
  numberToLE a 4 ++ numberToLE b 4 ++ numberToLE c 4

theorem leBytes_length (m n : Nat) : (leBytes m n).length = n := by
  induction n generalizing m with
  | zero => rfl
  | succ n ih => simp [leBytes, ih]

theorem numberToLE_length (v n : Nat) : (numberToLE v n).length = n := by
  simp [numberToLE, leBytes_length]

/-- C10: the little-endian integer codec round-trips at every width the
protocol uses.  For every `v < 2^32` and `w ∈ {1, 2, 4}`,
`LEToNumber(numberToLE(v, w), 0, w) = v mod 2^(8*w)`. -/
theorem le_roundtrip (v : Nat) (hv : v < 2 ^ 32) :
    LEToNumber (numberToLE v 1) 0 1 = v % 2 ^ 8 ∧
    LEToNumber (numberToLE v 2) 0 2 = v % 2 ^ 16 ∧
    LEToNumber (numberToLE v 4) 0 4 = v % 2 ^ 32 := by
  have hm : v % 2 ^ 32 = v := Nat.mod_eq_of_lt hv
  refine ⟨?_, ?_, ?_⟩ <;>
    · simp [LEToNumber, numberToLE, leBytes, leAcc, hm]
      omega

/-- Witness for `le_roundtrip` at `v = 0x12349876`. -/
theorem le_roundtrip_witness :
    0x12349876 < 2 ^ 32 ∧
      LEToNumber (numberToLE 0x12349876 4) 0 4 = 0x12349876 % 2 ^ 32 :=
  ⟨by decide, (le_roundtrip 0x12349876 (by decide)).2.2⟩

/-- `readString(buffer, offset, maxLength)` from `utils.js`: bytes from
`offset` up to the first zero byte, at most `maxLength` of them.  (The code
only calls it at in-range offsets; out-of-range indices use the `getD`
default `0`.) -/
def readStringBytes (b : List Nat) (offset : Nat) : Nat → List Nat
  | 0 => []
  | n + 1 =>
    let byte := b.getD offset 0
    if byte = 0 then [] else byte :: readStringBytes b (offset + 1) n

/-! ## PIT codec (`src/js/pit-parser.js`, constants from `constants.js`) -/

def PIT_MAGIC : Nat := 0x12349876
def PIT_HEADER_SIZE : Nat := 28
def PIT_ENTRY_SIZE : Nat := 132

/-- A PIT entry: nine little-endian u32 fields and three 32-byte
null-terminated strings, modelled as raw byte lists. -/
structure PitEntry where
  binaryType : Nat
  deviceType : Nat
  partitionId : Nat
  partitionType : Nat
  filesystem : Nat
  startBlock : Nat
  numBlocks : Nat
  fileOffset : Nat
  fileSize : Nat
  partitionName : List Nat
  flashFilename : List Nat
  fotaFilename : List Nat
deriving DecidableEq, Repr

structure PitData where
  magic : Nat
  count : Nat
  entries : List PitEntry
deriving DecidableEq, Repr

/-- `PitParser.parseEntry(data, offset)`. -/
def parseEntry (data : List Nat) (offset : Nat) : PitEntry :=
  { binaryType := LEToNumber data (offset + 0) 4
    deviceType := LEToNumber data (offset + 4) 4
    partitionId := LEToNumber data (offset + 8) 4
    partitionType := LEToNumber data (offset + 12) 4
    filesystem := LEToNumber data (offset + 16) 4
    startBlock := LEToNumber data (offset + 20) 4
    numBlocks := LEToNumber data (offset + 24) 4
    fileOffset := LEToNumber data (offset + 28) 4
    fileSize := LEToNumber data (offset + 32) 4
    partitionName := readStringBytes data (offset + 36) 32
    flashFilename := readStringBytes data (offset + 68) 32
    fotaFilename := readStringBytes data (offset + 100) 32 }

/-- The entry loop of `PitParser.parse`: `count` iterations, but a
truncated input only logs a warning and BREAKS (it does not fail). -/
def parseEntries (pitData : List Nat) (offset : Nat) : Nat → List PitEntry
  | 0 => []
  | count + 1 =>
    if offset + PIT_ENTRY_SIZE > pitData.length then []
    else parseEntry pitData offset :: parseEntries pitData (offset + PIT_ENTRY_SIZE) count

/-- `PitParser.parse(pitData)`. -/
def pitParse (pitData : List Nat) : Except String PitData :=
  if pitData.length < PIT_HEADER_SIZE then .error "PIT data too small"
  else
    let magic := LEToNumber pitData 0 4
    let count := LEToNumber pitData 4 4
    if magic ≠ PIT_MAGIC then .error "Invalid PIT magic"
    else .ok { magic := magic, count := count,
               entries := parseEntries pitData PIT_HEADER_SIZE count }

/-- `PitParser.writeString(buffer, offset, str, 32)`: at most 31 bytes of
the string, a null terminator, and the zero bytes the fresh buffer already
held. -/
def writeStringField (s : List Nat) : List Nat :=
  s.take 31 ++ List.replicate (32 - min s.length 31) 0

/-- `PitParser.serializeEntry`. -/
def serializeEntry (e : PitEntry) : List Nat :=
  numberToLE e.binaryType 4 ++ numberToLE e.deviceType 4 ++ numberToLE e.partitionId 4 ++
  numberToLE e.partitionType 4 ++ numberToLE e.filesystem 4 ++ numberToLE e.startBlock 4 ++
  numberToLE e.numBlocks 4 ++ numberToLE e.fileOffset 4 ++ numberToLE e.fileSize 4 ++
  writeStringField e.partitionName ++ writeStringField e.flashFilename ++
  writeStringField e.fotaFilename

/-- `PitParser.serialize`. -/
def pitSerialize (p : PitData) : List Nat :=
  numberToLE p.magic 4 ++ numberToLE p.count 4 ++ List.replicate 20 0 ++
    (p.entries.map serializeEntry).join

/-- A PIT string the on-wire format can represent losslessly: at most 31
non-null ASCII bytes (§3/§6 of the spec: strings are ASCII). -/
def WFString (s : List Nat) : Prop :=
  s.length ≤ 31 ∧ ∀ b ∈ s, 0 < b ∧ b < 128

/-- Well-formed entry: u32 fields (§3: "Nine little-endian u32 fields")
and representable strings. -/
def WFEntry (e : PitEntry) : Prop :=
  e.binaryType < 2 ^ 32 ∧ e.deviceType < 2 ^ 32 ∧ e.partitionId < 2 ^ 32 ∧
  e.partitionType < 2 ^ 32 ∧ e.filesystem < 2 ^ 32 ∧ e.startBlock < 2 ^ 32 ∧
  e.numBlocks < 2 ^ 32 ∧ e.fileOffset < 2 ^ 32 ∧ e.fileSize < 2 ^ 32 ∧
  WFString e.partitionName ∧ WFString e.flashFilename ∧ WFString e.fotaFilename

/-- Well-formed PIT value (§3: `magic == 0x12349876`, `count == len(entries)`). -/
def WFPit (p : PitData) : Prop :=
  p.magic = PIT_MAGIC ∧ p.count = p.entries.length ∧ p.entries.length < 2 ^ 32 ∧
    ∀ e ∈ p.entries, WFEntry e

instance : DecidablePred WFString := fun s => by unfold WFString; infer_instance
instance : DecidablePred WFEntry := fun e => by unfold WFEntry; infer_instance
instance : DecidablePred WFPit := fun p => by unfold WFPit; infer_instance

/-! ### Index-shifting lemmas for the byte codec -/

theorem getD_drop (l : List Nat) (n m d : Nat) :
    (l.drop n).getD m d = l.getD (n + m) d := by
  simp [List.getD, List.get?_drop]

theorem leAcc_drop (l : List Nat) (off k n : Nat) :
    leAcc l (off + k) n = leAcc (l.drop off) k n := by
  induction n with
  | zero => rfl
  | succ n ih =>
    simp only [leAcc, ih, getD_drop, Nat.add_assoc]

theorem LEToNumber_drop (l : List Nat) (off k n : Nat) :
    LEToNumber l (off + k) n = LEToNumber (l.drop off) k n := by
  simp [LEToNumber, leAcc_drop]

theorem readStringBytes_drop (l : List Nat) (off : Nat) (n : Nat) : ∀ k,
    readStringBytes l (off + k) n = readStringBytes (l.drop off) k n := by
  induction n with
  | zero => intro k; rfl
  | succ n ih =>
    intro k
    simp only [readStringBytes, getD_drop]
    rw [show off + k + 1 = off + (k + 1) from by omega, ih]

theorem LEToNumber_append (pre tail : List Nat) (k n : Nat) :
    LEToNumber (pre ++ tail) (pre.length + k) n = LEToNumber tail k n := by
  rw [LEToNumber_drop, List.drop_left]

theorem readStringBytes_append (pre tail : List Nat) (k n : Nat) :
    readStringBytes (pre ++ tail) (pre.length + k) n = readStringBytes tail k n := by
  rw [readStringBytes_drop, List.drop_left]

/-- Reading back four little-endian bytes recovers the 32-bit value. -/
theorem LEToNumber_numLE (v : Nat) (tail : List Nat) :
    LEToNumber (numberToLE v 4 ++ tail) 0 4 = v % 2 ^ 32 := by
  simp [LEToNumber, numberToLE, leBytes, leAcc]
  omega

theorem LEToNumber_skip4 (v : Nat) (tail : List Nat) (k n : Nat) (hk : 4 ≤ k) :
    LEToNumber (numberToLE v 4 ++ tail) k n = LEToNumber tail (k - 4) n := by
  obtain ⟨j, rfl⟩ : ∃ j, k = 4 + j := ⟨k - 4, by omega⟩
  rw [show 4 + j - 4 = j from by omega,
    show 4 + j = (numberToLE v 4).length + j from by simp [numberToLE_length],
    LEToNumber_append]

theorem writeStringField_length (s : List Nat) : (writeStringField s).length = 32 := by
  simp [writeStringField]; omega

theorem LEToNumber_skip32 (s : List Nat) (tail : List Nat) (k n : Nat) (hk : 32 ≤ k) :
    LEToNumber (writeStringField s ++ tail) k n = LEToNumber tail (k - 32) n := by
  obtain ⟨j, rfl⟩ : ∃ j, k = 32 + j := ⟨k - 32, by omega⟩
  rw [show 32 + j - 32 = j from by omega,
    show 32 + j = (writeStringField s).length + j from by simp [writeStringField_length],
    LEToNumber_append]

theorem readStringBytes_skip4 (v : Nat) (tail : List Nat) (k n : Nat) (hk : 4 ≤ k) :
    readStringBytes (numberToLE v 4 ++ tail) k n = readStringBytes tail (k - 4) n := by
  obtain ⟨j, rfl⟩ : ∃ j, k = 4 + j := ⟨k - 4, by omega⟩
  rw [show 4 + j - 4 = j from by omega,
    show 4 + j = (numberToLE v 4).length + j from by simp [numberToLE_length],
    readStringBytes_append]

theorem readStringBytes_skip32 (s : List Nat) (tail : List Nat) (k n : Nat) (hk : 32 ≤ k) :
    readStringBytes (writeStringField s ++ tail) k n = readStringBytes tail (k - 32) n := by
  obtain ⟨j, rfl⟩ : ∃ j, k = 32 + j := ⟨k - 32, by omega⟩
  rw [show 32 + j - 32 = j from by omega,
    show 32 + j = (writeStringField s).length + j from by simp [writeStringField_length],
    readStringBytes_append]

theorem readStringBytes_exact (s : List Nat) : ∀ (post : List Nat) (n : Nat),
    s.length < n → (∀ b ∈ s, 0 < b) →
    readStringBytes (s ++ 0 :: post) 0 n = s := by
  induction s with
  | nil =>
    intro post n hn _
    obtain ⟨m, rfl⟩ := Nat.exists_eq_succ_of_ne_zero (by omega : n ≠ 0)
    simp [readStringBytes]
  | cons c s ih =>
    intro post n hn hnz
    obtain ⟨m, rfl⟩ := Nat.exists_eq_succ_of_ne_zero (by omega : n ≠ 0)
    have hc : 0 < c := hnz c (by simp)
    simp only [readStringBytes, List.cons_append, List.getD_cons_zero]
    rw [if_neg (by omega)]
    rw [show (0 : Nat) + 1 = 1 + 0 from rfl, readStringBytes_drop]
    simp only [List.drop_succ_cons, List.drop_zero]
    exact congrArg (c :: ·) (ih post m (by simpa using hn) fun b hb => hnz b (by simp [hb]))

/-- Reading a serialized string field back yields the original string. -/
theorem readString_field (s tail : List Nat) (h : WFString s) :
    readStringBytes (writeStringField s ++ tail) 0 32 = s := by
  obtain ⟨hlen, hbytes⟩ := h
  have : writeStringField s ++ tail = s ++ 0 :: (List.replicate (31 - s.length) 0 ++ tail) := by
    simp only [writeStringField, List.take_of_length_le hlen, Nat.min_eq_left hlen]
    rw [show 32 - s.length = (31 - s.length) + 1 from by omega]
    simp [List.replicate_succ, List.append_assoc]
  rw [this]
  exact readStringBytes_exact s _ 32 (by omega) fun b hb => (hbytes b hb).1

theorem serializeEntry_length (e : PitEntry) : (serializeEntry e).length = 132 := by
  simp [serializeEntry, numberToLE_length, writeStringField_length]

theorem LEToNumber_append_zero (pre tail : List Nat) (n : Nat) :
    LEToNumber (pre ++ tail) pre.length n = LEToNumber tail 0 n := by
  have := LEToNumber_append pre tail 0 n
  simpa using this

theorem readStringBytes_append_zero (pre tail : List Nat) (n : Nat) :
    readStringBytes (pre ++ tail) pre.length n = readStringBytes tail 0 n := by
  have := readStringBytes_append pre tail 0 n
  simpa using this

/-- Parsing is invariant under dropping a prefix of known length. -/
theorem parseEntry_append (pre tail : List Nat) :
    parseEntry (pre ++ tail) pre.length = parseEntry tail 0 := by
  simp [parseEntry, LEToNumber_append, readStringBytes_append,
    LEToNumber_append_zero, readStringBytes_append_zero]

/-- A serialized well-formed entry parses back to itself. -/
theorem parseEntry_spec (e : PitEntry) (rest : List Nat) (h : WFEntry e) :
    parseEntry (serializeEntry e ++ rest) 0 = e := by
  cases e with
  | mk b1 b2 b3 b4 b5 b6 b7 b8 b9 s1 s2 s3 =>
    simp only [WFEntry] at h
    obtain ⟨h1, h2, h3, h4, h5, h6, h7, h8, h9, hs1, hs2, hs3⟩ := h
    simp only [parseEntry, serializeEntry, List.append_assoc, Nat.zero_add, PitEntry.mk.injEq]
    refine ⟨?_, ?_, ?_, ?_, ?_, ?_, ?_, ?_, ?_, ?_, ?_, ?_⟩ <;>
      simp only [LEToNumber_skip4, LEToNumber_skip32, readStringBytes_skip4,
        readStringBytes_skip32, Nat.reduceSub, Nat.reduceLeDiff, le_refl,
        LEToNumber_numLE, Nat.zero_add] <;>
      first
        | omega
        | exact readString_field _ _ hs1
        | exact readString_field _ _ hs2
        | exact readString_field _ _ hs3

/-- A serialized list of well-formed entries parses back to itself. -/
theorem parseEntries_spec (l : List PitEntry) : ∀ (pre : List Nat),
    (∀ e ∈ l, WFEntry e) →
    parseEntries (pre ++ (l.map serializeEntry).join) pre.length l.length = l := by
  induction l with
  | nil => intro pre _; rfl
  | cons e l ih =>
    intro pre h
    simp only [List.map_cons, List.join_cons, List.length_cons]
    show parseEntries (pre ++ (serializeEntry e ++ (l.map serializeEntry).join))
      pre.length (l.length + 1) = e :: l
    rw [parseEntries]
    rw [if_neg (by
      simp only [List.length_append, serializeEntry_length, PIT_ENTRY_SIZE]
      omega)]
    congr 1
    · rw [parseEntry_append]
      exact parseEntry_spec e _ (h e (by simp))
    · have hlen : pre.length + PIT_ENTRY_SIZE = (pre ++ serializeEntry e).length := by
        simp [serializeEntry_length, PIT_ENTRY_SIZE]
      rw [hlen, ← List.append_assoc]
      exact ih (pre ++ serializeEntry e) fun x hx => h x (by simp [hx])

theorem join_map_serializeEntry_length (l : List PitEntry) :
    ((l.map serializeEntry).join).length = 132 * l.length := by
  induction l with
  | nil => simp
  | cons e l ih => simp [serializeEntry_length, ih]; omega

theorem pitSerialize_length (p : PitData) :
    (pitSerialize p).length = 28 + 132 * p.entries.length := by
  rw [pitSerialize]
  simp only [List.length_append, numberToLE_length, List.length_replicate,
    join_map_serializeEntry_length]

/-- C2: the PIT codec round-trips.  For every well-formed PIT value,
`parse(serialize(p)) = p`; consequently every byte string in the image of
`serialize` on well-formed values satisfies `serialize(parse(b)) = b`. -/
theorem pit_roundtrip (p : PitData) (h : WFPit p) :
    pitParse (pitSerialize p) = .ok p ∧
      ∀ q, pitParse (pitSerialize p) = .ok q → pitSerialize q = pitSerialize p := by
  obtain ⟨hm, hc, hcount, hent⟩ := h
  have hlen := pitSerialize_length p
  have hnotshort : ¬ (pitSerialize p).length < PIT_HEADER_SIZE := by
    rw [hlen]; simp [PIT_HEADER_SIZE]
  have hmagic : LEToNumber (pitSerialize p) 0 4 = p.magic := by
    simp only [pitSerialize, List.append_assoc]
    rw [LEToNumber_numLE, hm]
    decide
  have hcnt : LEToNumber (pitSerialize p) 4 4 = p.count := by
    simp only [pitSerialize, List.append_assoc]
    rw [LEToNumber_skip4 _ _ _ _ (by norm_num : (4:Nat) ≤ 4),
      show (4 : Nat) - 4 = 0 from rfl, LEToNumber_numLE]
    omega
  have hsplit : pitSerialize p =
      (numberToLE p.magic 4 ++ numberToLE p.count 4 ++ List.replicate 20 0) ++
        (p.entries.map serializeEntry).join := rfl
  have hpre : (28 : Nat) =
      (numberToLE p.magic 4 ++ numberToLE p.count 4 ++ List.replicate 20 0).length := by
    simp [numberToLE_length]
  have hentries : parseEntries (pitSerialize p) 28 p.entries.length = p.entries := by
    rw [hsplit, hpre]
    exact parseEntries_spec p.entries _ hent
  have hok : pitParse (pitSerialize p) = .ok p := by
    simp only [pitParse]
    rw [if_neg hnotshort]
    simp only [hmagic, hcnt, hm, ne_eq, not_true_eq_false, if_false, ite_false]
    simp only [hc, PIT_HEADER_SIZE, hentries]
    rw [← hm, ← hc]
  exact ⟨hok, fun q hq => by rw [hok] at hq; cases hq; rfl⟩

/-- Witness for `pit_roundtrip`: a concrete two-entry PIT. -/
theorem pit_roundtrip_witness :
    WFPit ⟨PIT_MAGIC, 2,
      [⟨0, 2, 80, 0, 0, 0, 1, 0, 0, [66, 76], [98, 108], []⟩,
       ⟨0, 2, 3, 0, 0, 1, 9, 0, 0, [66, 79, 79, 84], [98, 111, 111, 116], []⟩]⟩ ∧
    pitParse (pitSerialize ⟨PIT_MAGIC, 2,
      [⟨0, 2, 80, 0, 0, 0, 1, 0, 0, [66, 76], [98, 108], []⟩,
       ⟨0, 2, 3, 0, 0, 1, 9, 0, 0, [66, 79, 79, 84], [98, 111, 111, 116], []⟩]⟩) =
      .ok ⟨PIT_MAGIC, 2,
      [⟨0, 2, 80, 0, 0, 0, 1, 0, 0, [66, 76], [98, 108], []⟩,
       ⟨0, 2, 3, 0, 0, 1, 9, 0, 0, [66, 79, 79, 84], [98, 111, 111, 116], []⟩]⟩ :=
  ⟨by decide, (pit_roundtrip _ (by decide)).1⟩

/-- C3 counterexample: a 28-byte input whose header declares `count = 1`
but carries no entry bytes.  `parse` does NOT fail — it returns a
`PitData` with `count = 1` and zero entries (the truncation branch only
logs a warning and breaks). -/
theorem pit_truncated_counterexample :
    pitParse (numberToLE PIT_MAGIC 4 ++ numberToLE 1 4 ++ List.replicate 20 0) =
      .ok ⟨PIT_MAGIC, 1, []⟩ := by
  rfl

/-- C3 amended: `parse` fails exactly on a short header (`< 28` bytes) or
a bad magic.  A `count` too large for the input does NOT fail: the
returned entries are the maximal prefix that fits,
`min count ((len - 28) / 132)` of them — which can be fewer than `count`. -/
theorem pit_parse_truncation (b : List Nat) :
    ((b.length < PIT_HEADER_SIZE ∨ LEToNumber b 0 4 ≠ PIT_MAGIC) ↔
      ∃ err, pitParse b = .error err) ∧
    ∀ p, pitParse b = .ok p → p.magic = LEToNumber b 0 4 ∧ p.count = LEToNumber b 4 4 ∧
      p.entries.length = min p.count ((b.length - PIT_HEADER_SIZE) / PIT_ENTRY_SIZE) := by
  have hlen : ∀ off n, (parseEntries b off n).length =
      min n ((b.length - off) / PIT_ENTRY_SIZE) := by
    intro off n
    induction n generalizing off with
    | zero => simp [parseEntries]
    | succ n ih =>
      rw [parseEntries]
      by_cases hoff : off + PIT_ENTRY_SIZE > b.length
      · rw [if_pos hoff]
        simp only [List.length_nil, PIT_ENTRY_SIZE] at *
        omega
      · rw [if_neg hoff]
        simp only [List.length_cons, ih, PIT_ENTRY_SIZE] at *
        omega
  constructor
  · constructor
    · intro h
      by_cases hs : b.length < PIT_HEADER_SIZE
      · exact ⟨"PIT data too small", by simp [pitParse, hs]⟩
      · have hmag : LEToNumber b 0 4 ≠ PIT_MAGIC := by tauto
        exact ⟨"Invalid PIT magic", by simp [pitParse, hs, hmag]⟩
    · intro ⟨err, herr⟩
      by_contra hcon
      push_neg at hcon
      simp [pitParse, if_neg (by omega : ¬ b.length < PIT_HEADER_SIZE), hcon.2] at herr
  · intro p hp
    simp only [pitParse] at hp
    by_cases hs : b.length < PIT_HEADER_SIZE
    · simp [hs] at hp
    · rw [if_neg hs] at hp
      by_cases hmag : LEToNumber b 0 4 ≠ PIT_MAGIC
      · simp [hmag] at hp
      · rw [if_neg (by simpa using hmag)] at hp
        cases hp
        exact ⟨by simpa using hmag, rfl, hlen _ _⟩

/-! ## Handshake (`DownloadEngine.handshake`) -/

/-- The four bytes `"ODIN"` written by the handshake. -/
def ODIN_BYTES : List Nat := [79, 68, 73, 78]

/-- `DownloadEngine.handshake()`, as a function of the device's reply: the
reply is read with `read(64, ...)` (modelled by `take 64`); success requires
at least 4 bytes whose first four are `L O K E` (76, 79, 75, 69). -/
def handshake (reply : List Nat) : Bool :=
  let resp := reply.take 64
  if resp.length < 4 then false
  else
    (resp.getD 0 0 == 76 && resp.getD 1 0 == 79) &&
      (resp.getD 2 0 == 75 && resp.getD 3 0 == 69)

/-- C7: the handshake writes exactly the four bytes `ODIN`, and succeeds on
a reply (truncated to the 64 bytes requested) iff it has at least 4 bytes
and its first four bytes are `LOKE`; in particular any reply shorter than
4 bytes fails. -/
theorem handshake_spec (reply : List Nat) :
    ODIN_BYTES.length = 4 ∧
    (handshake reply = true ↔
      4 ≤ (reply.take 64).length ∧ (reply.take 64).take 4 = [76, 79, 75, 69]) ∧
    (reply.length < 4 → handshake reply = false) := by
  refine ⟨rfl, ?_, ?_⟩
  · unfold handshake
    rcases hr : reply.take 64 with _ | ⟨a, _ | ⟨b, _ | ⟨c, _ | ⟨d, t⟩⟩⟩⟩ <;>
      simp_all <;> omega
  · intro h
    unfold handshake
    rw [if_pos]
    simp only [List.length_take]
    omega

/-- Witness for `handshake_spec`: a `LOKE` reply succeeds. -/
theorem handshake_spec_witness : handshake [76, 79, 75, 69] = true :=
  (handshake_spec [76, 79, 75, 69]).2.1.mpr (by decide)

/-! ## Command frames (C9) -/

/-- Every command the engine sends is built the same way: a fresh
`Uint8Array(1024)` (zero-filled), the payload `set` at offset 0, and
`write(buf.slice(0, this.packetSize))` with `packetSize = 1024` fixed in
the constructor. -/
def commandFrame (payload : List Nat) : List Nat :=
  payload ++ List.replicate (1024 - payload.length) 0

def structPackII (a b : Nat) : List Nat := numberToLE a 4 ++ numberToLE b 4

/-- `structPack('<Q', v)` : 64-bit little-endian (low 32 bits then high). -/
def structPackQ (v : Nat) : List Nat :=
  numberToLE v 4 ++ numberToLE (v / 2 ^ 32) 4

/-- A `(cmd, sub, arg)` command packet (`structPack('<III', ...)` at 0). -/
def cmdPacket (cmd sub arg : Nat) : List Nat :=
  commandFrame (structPackIII cmd sub arg)

/-- The transfer finalizer frame: `(102, 3)` then
`(destination=0, actual_bytes, 0, device_type, partition_id, completion)`
at offset 8. -/
def finalizerPacket (actualBytes deviceType partitionId completionStatus : Nat) : List Nat :=
  commandFrame (structPackII 102 3 ++
    (numberToLE 0 4 ++ numberToLE actualBytes 4 ++ numberToLE 0 4 ++
     numberToLE deviceType 4 ++ numberToLE partitionId 4 ++ numberToLE completionStatus 4))

/-- The session-open frame: `(100, 2)` then `total_bytes:u64` at offset 8. -/
def sessionOpenPacket (totalBytes : Nat) : List Nat :=
  commandFrame (structPackII 100 2 ++ structPackQ totalBytes)

theorem structPackIII_length (a b c : Nat) : (structPackIII a b c).length = 12 := by
  simp [structPackIII, numberToLE_length]

theorem sessionPayload_length (t : Nat) : (structPackII 100 2 ++ structPackQ t).length = 16 := by
  simp [structPackII, structPackQ, numberToLE_length]

theorem finalizerPayload_length (a dt pid st : Nat) :
    (structPackII 102 3 ++
      (numberToLE 0 4 ++ numberToLE a 4 ++ numberToLE 0 4 ++
       numberToLE dt 4 ++ numberToLE pid 4 ++ numberToLE st 4)).length = 32 := by
  simp [structPackII, numberToLE_length]

theorem commandFrame_length (payload : List Nat) (h : payload.length ≤ 1024) :
    (commandFrame payload).length = 1024 := by
  simp only [commandFrame, List.length_append, List.length_replicate]
  omega

theorem commandFrame_drop (payload : List Nat) :
    (commandFrame payload).drop payload.length = List.replicate (1024 - payload.length) 0 := by
  simp [commandFrame, List.drop_left]

/-- C9: every command frame the session sends — `(cmd, sub, arg)` packets
for commands 100/101/102/103, the session-open frame, and the transfer
finalizer — is exactly 1024 bytes long, and everything beyond the payload
is zero padding. -/
theorem command_frames_1024 (cmd sub arg total actual dt pid status : Nat) :
    (cmdPacket cmd sub arg).length = 1024 ∧
    (sessionOpenPacket total).length = 1024 ∧
    (finalizerPacket actual dt pid status).length = 1024 ∧
    (cmdPacket cmd sub arg).drop 12 = List.replicate 1012 0 ∧
    (sessionOpenPacket total).drop 16 = List.replicate 1008 0 ∧
    (finalizerPacket actual dt pid status).drop 32 = List.replicate 992 0 := by
  refine ⟨?_, ?_, ?_, ?_, ?_, ?_⟩
  · exact commandFrame_length _ (by rw [structPackIII_length]; omega)
  · exact commandFrame_length _ (by rw [sessionPayload_length]; omega)
  · exact commandFrame_length _ (by rw [finalizerPayload_length]; omega)
  · have h := commandFrame_drop (structPackIII cmd sub arg)
    rw [structPackIII_length, show (1024 : Nat) - 12 = 1012 from rfl] at h
    exact h
  · have h := commandFrame_drop (structPackII 100 2 ++ structPackQ total)
    rw [sessionPayload_length, show (1024 : Nat) - 16 = 1008 from rfl] at h
    exact h
  · have h := commandFrame_drop (structPackII 102 3 ++
      (numberToLE 0 4 ++ numberToLE actual 4 ++ numberToLE 0 4 ++
       numberToLE dt 4 ++ numberToLE pid 4 ++ numberToLE status 4))
    rw [finalizerPayload_length, show (1024 : Nat) - 32 = 992 from rfl] at h
    exact h

/-! ## Transfer chunking (C1) -/

/-- `MAX_CHUNK_SIZE = 0x1E00000` (30 MiB) from `transferFile`. -/
def MAX_CHUNK_SIZE : Nat := 0x1E00000

/-- `SEND_BUFFER_SIZE = 30 * 1024 * 1024` from `transferFileStreamingLZ4`. -/
def SEND_BUFFER_SIZE : Nat := 30 * 1024 * 1024

/-- The chunk loop of `DownloadEngine.transferFile` (`while (offset <
fileSize)`), as the list of `(chunkSize, completionStatus)` pairs carried
by the `(102,2)` frame and the `(102,3)` finalizer of each sequence:
`chunkSize = min(remaining, MAX_CHUNK_SIZE)` and `completionStatus = 1`
iff nothing remains after this chunk. -/
def memChunksGo (remaining : Nat) : List (Nat × Nat) :=
  if remaining = 0 then []
  else
    (min remaining MAX_CHUNK_SIZE,
      if remaining - min remaining MAX_CHUNK_SIZE = 0 then 1 else 0) ::
      memChunksGo (remaining - min remaining MAX_CHUNK_SIZE)
termination_by remaining
decreasing_by simp [MAX_CHUNK_SIZE]; omega

def memChunks (fileSize : Nat) : List (Nat × Nat) := memChunksGo fileSize

/-- Closed form of the in-memory chunking. -/
def memClosed (n : Nat) : List (Nat × Nat) :=
  if n = 0 then []
  else
    List.replicate ((n - 1) / MAX_CHUNK_SIZE) (MAX_CHUNK_SIZE, 0) ++
      [(n - MAX_CHUNK_SIZE * ((n - 1) / MAX_CHUNK_SIZE), 1)]

theorem memChunksGo_eq_closed (n : Nat) : memChunksGo n = memClosed n := by
  induction n using Nat.strong_induction_on with
  | _ n ih =>
    rw [memChunksGo]
    by_cases h0 : n = 0
    · simp [h0, memClosed]
    · rw [if_neg h0]
      by_cases hle : n ≤ MAX_CHUNK_SIZE
      · have hc : min n MAX_CHUNK_SIZE = n := by omega
        rw [hc, Nat.sub_self, if_pos rfl, memChunksGo]
        have hdiv0 : (n - 1) / MAX_CHUNK_SIZE = 0 := by
          apply Nat.div_eq_of_lt
          simp only [MAX_CHUNK_SIZE] at *
          omega
        simp [memClosed, if_neg h0, hdiv0]
      · have hc : min n MAX_CHUNK_SIZE = MAX_CHUNK_SIZE := by omega
        have hpos : 0 < MAX_CHUNK_SIZE := by decide
        rw [hc, if_neg (by omega : ¬ n - MAX_CHUNK_SIZE = 0),
          ih (n - MAX_CHUNK_SIZE) (by omega)]
        simp only [memClosed, if_neg (show ¬ n - MAX_CHUNK_SIZE = 0 from by omega),
          if_neg h0]
        have hdiv : (n - 1) / MAX_CHUNK_SIZE = (n - MAX_CHUNK_SIZE - 1) / MAX_CHUNK_SIZE + 1 := by
          simp only [MAX_CHUNK_SIZE] at *
          omega
        have hlast : n - MAX_CHUNK_SIZE -
              MAX_CHUNK_SIZE * ((n - MAX_CHUNK_SIZE - 1) / MAX_CHUNK_SIZE)
            = n - MAX_CHUNK_SIZE * ((n - MAX_CHUNK_SIZE - 1) / MAX_CHUNK_SIZE + 1) := by
          simp only [MAX_CHUNK_SIZE]
          omega
        rw [hdiv, List.replicate_succ, hlast, List.cons_append]

/-- The buffer-filling loop of the streaming callback in
`transferFileStreamingLZ4`: bytes of one decompressed block are copied
into `sendBuffer`; when `bufferPos` reaches `SEND_BUFFER_SIZE` the buffer
is flushed as one sequence with `completionStatus = 0`.  `fuel ≥ rem`
makes the recursion structural (each iteration copies at least one byte
when `bufferPos < SEND_BUFFER_SIZE`). -/
def feedLoop : Nat → Nat → Nat → Nat × List (Nat × Nat)
  | 0, bp, _ => (bp, [])
  | fuel + 1, bp, rem =>
    if rem = 0 then (bp, [])
    else
      if SEND_BUFFER_SIZE ≤ bp + min (SEND_BUFFER_SIZE - bp) rem then
        ((feedLoop fuel 0 (rem - min (SEND_BUFFER_SIZE - bp) rem)).1,
          (SEND_BUFFER_SIZE, 0) ::
            (feedLoop fuel 0 (rem - min (SEND_BUFFER_SIZE - bp) rem)).2)
      else (bp + min (SEND_BUFFER_SIZE - bp) rem, [])

/-- Feeding the successive decompressed blocks through the callback. -/
def streamFeed : List Nat → Nat → Nat × List (Nat × Nat)
  | [], bp => (bp, [])
  | b :: bs, bp =>
    ((streamFeed bs (feedLoop b bp b).1).1,
      (feedLoop b bp b).2 ++ (streamFeed bs (feedLoop b bp b).1).2)

/-- The full streaming transfer of one member, as the list of
`(sequenceSize, completionStatus)` pairs flushed to the device: the
buffer fills during decompression, then `if (bufferPos > 0)
flushBuffer(true)` at stream end. -/
def streamChunks (blocks : List Nat) : List (Nat × Nat) :=
  (streamFeed blocks 0).2 ++
    (if 0 < (streamFeed blocks 0).1 then [((streamFeed blocks 0).1, 1)] else [])

/-- Closed form of the streaming chunking: all full 30-MiB sequences carry
completion 0, and a final partial sequence (present only when the total is
not a multiple of 30 MiB) carries completion 1. -/
def streamClosed (t : Nat) : List (Nat × Nat) :=
  List.replicate (t / SEND_BUFFER_SIZE) (SEND_BUFFER_SIZE, 0) ++
    (if t % SEND_BUFFER_SIZE = 0 then [] else [(t % SEND_BUFFER_SIZE, 1)])

theorem feedLoop_spec (fuel : Nat) : ∀ bp rem, bp < SEND_BUFFER_SIZE → rem ≤ fuel →
    feedLoop fuel bp rem =
      ((bp + rem) % SEND_BUFFER_SIZE,
        List.replicate ((bp + rem) / SEND_BUFFER_SIZE) (SEND_BUFFER_SIZE, 0)) := by
  induction fuel with
  | zero =>
    intro bp rem hbp hrem
    have h0 : rem = 0 := by omega
    subst h0
    simp only [feedLoop, Nat.add_zero]
    rw [Nat.mod_eq_of_lt hbp, Nat.div_eq_of_lt hbp]
    rfl
  | succ fuel ih =>
    intro bp rem hbp hrem
    rw [feedLoop]
    by_cases h0 : rem = 0
    · subst h0
      simp only [if_pos rfl, Nat.add_zero]
      rw [Nat.mod_eq_of_lt hbp, Nat.div_eq_of_lt hbp]
      rfl
    · rw [if_neg h0]
      by_cases hfull : SEND_BUFFER_SIZE ≤ bp + min (SEND_BUFFER_SIZE - bp) rem
      · rw [if_pos hfull]
        have hcopy : min (SEND_BUFFER_SIZE - bp) rem = SEND_BUFFER_SIZE - bp := by omega
        rw [hcopy]
        have h1 : 0 < SEND_BUFFER_SIZE := by decide
        rw [ih 0 (rem - (SEND_BUFFER_SIZE - bp)) h1 (by omega)]
        have hmod : (bp + rem) % SEND_BUFFER_SIZE =
            (0 + (rem - (SEND_BUFFER_SIZE - bp))) % SEND_BUFFER_SIZE := by
          simp only [SEND_BUFFER_SIZE] at *
          omega
        have hdiv : (bp + rem) / SEND_BUFFER_SIZE =
            (0 + (rem - (SEND_BUFFER_SIZE - bp))) / SEND_BUFFER_SIZE + 1 := by
          simp only [SEND_BUFFER_SIZE] at *
          omega
        rw [hmod, hdiv, List.replicate_succ]
      · rw [if_neg hfull]
        have hcopy : min (SEND_BUFFER_SIZE - bp) rem = rem := by omega
        rw [hcopy]
        have hlt : bp + rem < SEND_BUFFER_SIZE := by omega
        rw [Nat.mod_eq_of_lt hlt, Nat.div_eq_of_lt hlt]
        rfl

theorem streamFeed_spec (blocks : List Nat) : ∀ bp, bp < SEND_BUFFER_SIZE →
    streamFeed blocks bp =
      ((bp + blocks.sum) % SEND_BUFFER_SIZE,
        List.replicate ((bp + blocks.sum) / SEND_BUFFER_SIZE) (SEND_BUFFER_SIZE, 0)) := by
  induction blocks with
  | nil =>
    intro bp hbp
    simp only [streamFeed, List.sum_nil, Nat.add_zero]
    rw [Nat.mod_eq_of_lt hbp, Nat.div_eq_of_lt hbp]
    rfl
  | cons b bs ih =>
    intro bp hbp
    have hSB : 0 < SEND_BUFFER_SIZE := by decide
    have hdiv : (bp + b) / SEND_BUFFER_SIZE +
        ((bp + b) % SEND_BUFFER_SIZE + bs.sum) / SEND_BUFFER_SIZE
        = (bp + b + bs.sum) / SEND_BUFFER_SIZE := by
      simp only [SEND_BUFFER_SIZE]
      omega
    simp only [List.sum_cons, ← Nat.add_assoc]
    rw [streamFeed, feedLoop_spec b bp b hbp (le_refl b), ih _ (Nat.mod_lt _ hSB),
      Nat.mod_add_mod, ← List.replicate_add, hdiv]

theorem streamChunks_eq_closed (blocks : List Nat) :
    streamChunks blocks = streamClosed blocks.sum := by
  have hSB : 0 < SEND_BUFFER_SIZE := by decide
  rw [streamChunks, streamFeed_spec blocks 0 hSB, streamClosed]
  simp only [Nat.zero_add]
  by_cases h : blocks.sum % SEND_BUFFER_SIZE = 0
  · rw [if_neg (by omega), if_pos h]
  · rw [if_pos (by omega), if_neg h]

/-- C1 (amended): both transfer paths cut a member into contiguous
sequences of at most 30 MiB whose sizes sum to the member's size —
exactly `ceil(size / 30 MiB)` of them.  On the in-memory path the final
finalizer always carries `completion_status = 1` and all prior carry 0.
On the streaming-LZ4 path this holds whenever the decompressed size is
NOT a positive multiple of 30 MiB; at an exact multiple the last buffer
fill flushes with `completion_status = 0` and no completion-1 finalizer
is ever sent. -/
theorem chunk_sequences (N : Nat) (blocks : List Nat) :
    memChunks N = memClosed N ∧
    streamChunks blocks = streamClosed blocks.sum ∧
    (memChunks N).length = (N + (MAX_CHUNK_SIZE - 1)) / MAX_CHUNK_SIZE ∧
    (streamChunks blocks).length =
      (blocks.sum + (SEND_BUFFER_SIZE - 1)) / SEND_BUFFER_SIZE ∧
    (∀ c ∈ memChunks N, c.1 ≤ MAX_CHUNK_SIZE) ∧
    (∀ c ∈ streamChunks blocks, c.1 ≤ SEND_BUFFER_SIZE) ∧
    ((memChunks N).map Prod.fst).sum = N ∧
    ((streamChunks blocks).map Prod.fst).sum = blocks.sum ∧
    (0 < N → (memChunks N).map Prod.snd =
      List.replicate ((memChunks N).length - 1) 0 ++ [1]) ∧
    (blocks.sum % SEND_BUFFER_SIZE ≠ 0 → (streamChunks blocks).map Prod.snd =
      List.replicate ((streamChunks blocks).length - 1) 0 ++ [1]) ∧
    (0 < blocks.sum → blocks.sum % SEND_BUFFER_SIZE = 0 →
      (streamChunks blocks).map Prod.snd =
        List.replicate (streamChunks blocks).length 0) := by
  have hmem : memChunks N = memClosed N := memChunksGo_eq_closed N
  have hstr := streamChunks_eq_closed blocks
  refine ⟨hmem, hstr, ?_, ?_, ?_, ?_, ?_, ?_, ?_, ?_, ?_⟩
  · rw [hmem]
    by_cases hN : N = 0
    · simp [memClosed, hN, MAX_CHUNK_SIZE]
    · simp only [memClosed, if_neg hN, List.length_append, List.length_replicate,
        List.length_cons, List.length_nil]
      simp only [MAX_CHUNK_SIZE]
      omega
  · rw [hstr, streamClosed]
    by_cases h : blocks.sum % SEND_BUFFER_SIZE = 0 <;>
      · simp only [h, if_pos, if_neg, ite_true, ite_false, List.length_append,
          List.length_replicate, List.length_cons, List.length_nil, if_true, if_false]
        simp only [SEND_BUFFER_SIZE] at *
        omega
  · rw [hmem]
    intro c hc
    by_cases hN : N = 0
    · simp [memClosed, hN] at hc
    · simp only [memClosed, if_neg hN, List.mem_append, List.mem_singleton,
        List.mem_replicate] at hc
      rcases hc with ⟨-, rfl⟩ | rfl
      · exact le_refl _
      · simp only [MAX_CHUNK_SIZE]
        omega
  · rw [hstr]
    intro c hc
    simp only [streamClosed, List.mem_append, List.mem_replicate] at hc
    rcases hc with ⟨-, rfl⟩ | hc
    · exact le_refl _
    · by_cases h : blocks.sum % SEND_BUFFER_SIZE = 0
      · simp [h] at hc
      · rw [if_neg h] at hc
        simp only [List.mem_singleton] at hc
        subst hc
        simp only [SEND_BUFFER_SIZE] at *
        omega
  · rw [hmem]
    by_cases hN : N = 0
    · simp [memClosed, hN]
    · simp only [memClosed, if_neg hN, List.map_append, List.map_replicate,
        List.map_cons, List.map_nil, List.sum_append, List.sum_cons, List.sum_nil,
        List.sum_replicate, smul_eq_mul]
      simp only [MAX_CHUNK_SIZE]
      omega
  · rw [hstr]
    by_cases h : blocks.sum % SEND_BUFFER_SIZE = 0 <;>
      · simp only [streamClosed, h, List.map_append, List.map_replicate,
          List.map_cons, List.map_nil, List.sum_append, List.sum_cons, List.sum_nil,
          List.sum_replicate, smul_eq_mul, ite_true, ite_false, if_true, if_false]
        simp only [SEND_BUFFER_SIZE] at *
        omega
  · intro hN
    rw [hmem]
    simp only [memClosed, if_neg (by omega : ¬ N = 0), List.map_append,
      List.map_replicate, List.map_cons, List.map_nil, List.length_append,
      List.length_replicate, List.length_cons, List.length_nil]
    simp
  · intro h
    rw [hstr]
    simp only [streamClosed, if_neg h, List.map_append, List.map_replicate,
      List.map_cons, List.map_nil, List.length_append, List.length_replicate,
      List.length_cons, List.length_nil]
    simp
  · intro hpos h
    rw [hstr]
    simp only [streamClosed, if_pos h, List.map_append, List.map_replicate,
      List.map_cons, List.map_nil, List.length_append, List.length_replicate,
      List.length_cons, List.length_nil, List.append_nil]

/-- Witness for `chunk_sequences` at a 5-byte member. -/
theorem chunk_sequences_witness :
    0 < 5 ∧ (memChunks 5).map Prod.snd =
      List.replicate ((memChunks 5).length - 1) 0 ++ [1] :=
  ⟨by decide, (chunk_sequences 5 [5]).2.2.2.2.2.2.2.2.1 (by decide)⟩

/-- C1 counterexample: a member whose decompressed size is exactly 30 MiB.
Through the streaming-LZ4 path it is sent as a single full sequence whose
finalizer carries `completion_status = 0` — no completion-1 finalizer is
sent, contradicting the claim that the final chunk's finalizer carries
`completion_status = 1` on both paths.  (The in-memory path sends
completion 1 for the same member.) -/
theorem chunk_streaming_counterexample :
    streamChunks [30 * 1024 * 1024] = [(30 * 1024 * 1024, 0)] ∧
    memChunks (30 * 1024 * 1024) = [(30 * 1024 * 1024, 1)] := by
  constructor
  · rfl
  · rw [show memChunks (30 * 1024 * 1024) = memClosed (30 * 1024 * 1024) from
      memChunksGo_eq_closed _]
    rfl

/-- Witness for `pit_parse_truncation` at the truncated header input. -/
theorem pit_parse_truncation_witness :
    pitParse (numberToLE PIT_MAGIC 4 ++ numberToLE 1 4 ++ List.replicate 20 0) =
        .ok ⟨PIT_MAGIC, 1, []⟩ ∧
      (⟨PIT_MAGIC, 1, []⟩ : PitData).entries.length =
        min (⟨PIT_MAGIC, 1, []⟩ : PitData).count
          (((numberToLE PIT_MAGIC 4 ++ numberToLE 1 4 ++
              List.replicate 20 0).length - PIT_HEADER_SIZE) / PIT_ENTRY_SIZE) :=
  ⟨by rfl, ((pit_parse_truncation _).2 _ (by rfl)).2.2⟩

/-! ## Partition matcher (`DownloadEngine.uploadBinaries`, PIT path) -/

/-- ASCII `toLowerCase` on a byte (PIT strings are ASCII, §6). -/
def toLowerByte (b : Nat) : Nat := if 65 ≤ b ∧ b ≤ 90 then b + 32 else b

def toLower (s : List Nat) : List Nat := s.map toLowerByte

/-- Byte values of a string literal (ASCII). -/
def strBytes (s : String) : List Nat := s.data.map Char.toNat

/-- JavaScript `String.replace(pat, rep)` with a string pattern: only the
FIRST occurrence of `pat` is replaced. -/
def replaceFirst : List Nat → List Nat → List Nat → List Nat
  | [], _, _ => []
  | x :: xs, pat, rep =>
    if pat.isPrefixOf (x :: xs) then rep ++ (x :: xs).drop pat.length
    else x :: replaceFirst xs pat rep

/-- `fnameBase`: `fname.replace('.lz4','').replace('.gz','')
.replace('.img','').replace('.bin','')` — each replaces only the first
occurrence, anywhere in the string. -/
def stripRepl (s : List Nat) : List Nat :=
  replaceFirst (replaceFirst (replaceFirst (replaceFirst s
    (strBytes ".lz4") []) (strBytes ".gz") []) (strBytes ".img") []) (strBytes ".bin") []

/-- The four-rule disjunction from `uploadBinaries` (lines 262–265), on an
already-lowercased member name:
`fname === flashName || fnameBase === flashNameBase || fnameBase === partName
|| fnameBase.replace('-','_') === partName.replace('-','_')` —
`replace('-','_')` rewrites only the FIRST dash. -/
def entryMatches (fname : List Nat) (e : PitEntry) : Bool :=
  let fnameBase := stripRepl fname
  let partName := toLower e.partitionName
  let flashName := toLower e.flashFilename
  let flashNameBase :=
    replaceFirst (replaceFirst flashName (strBytes ".img") []) (strBytes ".bin") []
  fname == flashName || fnameBase == flashNameBase || fnameBase == partName ||
    replaceFirst fnameBase (strBytes "-") (strBytes "_") ==
      replaceFirst partName (strBytes "-") (strBytes "_")

/-- The `for (const entry of pit.entries)` loop with `break` on first match. -/
def matchFirst (fname : List Nat) : List PitEntry → Option PitEntry
  | [] => none
  | e :: es => if entryMatches fname e then some e else matchFirst fname es

/-- On a match, the engine adopts `(entry.partitionId, entry.deviceType)`. -/
def matchPartition (entries : List PitEntry) (filename : List Nat) : Option (Nat × Nat) :=
  (matchFirst (toLower filename) entries).map fun e => (e.partitionId, e.deviceType)

/-- Rule 4 as the CLAIM words it: both sides equal after normalizing EVERY
dash to an underscore (the code normalizes only the first).  Base as the
claim words it: the compression/image SUFFIXES stripped.  Used only to
exhibit the divergence from the code. -/
def stripSuffix (s pat : List Nat) : List Nat :=
  if pat.isSuffixOf s then s.take (s.length - pat.length) else s

def specBase (s : List Nat) : List Nat :=
  stripSuffix (stripSuffix (stripSuffix (stripSuffix s
    (strBytes ".lz4")) (strBytes ".gz")) (strBytes ".img")) (strBytes ".bin")

def normDashAll (s : List Nat) : List Nat :=
  s.map fun b => if b = 45 then 95 else b

/-- The matcher as the claim describes it. -/
def entryMatchesSpec (fname : List Nat) (e : PitEntry) : Bool :=
  let base := specBase fname
  let partName := toLower e.partitionName
  let flashName := toLower e.flashFilename
  fname == flashName ||
    base == stripSuffix (stripSuffix flashName (strBytes ".img")) (strBytes ".bin") ||
    base == partName || normDashAll base == normDashAll partName

/-- The two S4 PIT entries (`BOOTLOADER`/`sboot.bin` id 80 and
`BOOT`/`boot.img` id 3, device type 2). -/
def s4Entry1 : PitEntry :=
  ⟨0, 2, 80, 0, 0, 0, 0, 0, 0, strBytes "BOOTLOADER", strBytes "sboot.bin", []⟩

def s4Entry2 : PitEntry :=
  ⟨0, 2, 3, 0, 0, 0, 0, 0, 0, strBytes "BOOT", strBytes "boot.img", []⟩

/-- C5 counterexample: rule 4 in the code normalizes only the FIRST dash,
so member `a-b-c` does not match an entry named `a_b_c` although the
claim's "normalize every dash" rule matches it; conversely the code's
`replace` strips `.gz` in the middle of a name, so member `a.gzb` matches
an entry named `ab` although the claim's suffix-stripping `base` does not. -/
theorem matcher_counterexample :
    matchPartition [⟨0, 2, 5, 0, 0, 0, 0, 0, 0, strBytes "a_b_c", strBytes "zz", []⟩]
        (strBytes "a-b-c") = none ∧
    entryMatchesSpec (strBytes "a-b-c")
        ⟨0, 2, 5, 0, 0, 0, 0, 0, 0, strBytes "a_b_c", strBytes "zz", []⟩ = true ∧
    matchPartition [⟨0, 2, 7, 0, 0, 0, 0, 0, 0, strBytes "ab", strBytes "zz", []⟩]
        (strBytes "a.gzb") = some (7, 2) ∧
    entryMatchesSpec (strBytes "a.gzb")
        ⟨0, 2, 7, 0, 0, 0, 0, 0, 0, strBytes "ab", strBytes "zz", []⟩ = false := by
  refine ⟨by decide, by decide, by decide, by decide⟩

/-- C5 (amended): the matcher adopts `(partition_id, device_type)` from
the first entry, in entry order, satisfying any of the four rules, where
(as the code implements them) `base(n)` strips the FIRST occurrence of
each of `.lz4`, `.gz`, `.img`, `.bin` (in that order, anywhere in the
name), and rule 4 compares `base(n)` and the partition name after
rewriting only the FIRST `-` of each side to `_`.  Member `boot.img.lz4`
matches the S4 entry `boot.img` via rule 2 (rule 1 fails, rule 2 holds). -/
theorem matcher_first_match (entries : List PitEntry) (filename : List Nat) :
    (∀ e, matchFirst (toLower filename) entries = some e →
      matchPartition entries filename = some (e.partitionId, e.deviceType)) ∧
    (∀ e, matchFirst (toLower filename) entries = some e ↔
      entryMatches (toLower filename) e = true ∧
        ∃ pre post, entries = pre ++ e :: post ∧
          ∀ x ∈ pre, entryMatches (toLower filename) x = false) ∧
    (matchFirst (toLower filename) entries = none ↔
      ∀ e ∈ entries, entryMatches (toLower filename) e = false) ∧
    matchPartition [s4Entry1, s4Entry2] (strBytes "boot.img.lz4") = some (3, 2) ∧
    (toLower (strBytes "boot.img.lz4") == toLower s4Entry2.flashFilename) = false ∧
    (stripRepl (toLower (strBytes "boot.img.lz4")) ==
      replaceFirst (replaceFirst (toLower s4Entry2.flashFilename)
        (strBytes ".img") []) (strBytes ".bin") []) = true := by
  have hfind : ∀ es, matchFirst (toLower filename) es =
      es.find? (entryMatches (toLower filename)) := by
    intro es
    induction es with
    | nil => rfl
    | cons e es ih =>
      rw [matchFirst, List.find?_cons]
      by_cases h : entryMatches (toLower filename) e
      · simp [h]
      · simp only [Bool.not_eq_true] at h
        simp [h, ih]
  refine ⟨?_, ?_, ?_, by decide, by decide, by decide⟩
  · intro e he
    simp [matchPartition, he]
  · intro e
    rw [hfind, List.find?_eq_some]
    constructor
    · rintro ⟨hp, pre, post, rfl, hpre⟩
      exact ⟨hp, pre, post, rfl, fun x hx => by simpa using hpre x hx⟩
    · rintro ⟨hp, pre, post, rfl, hpre⟩
      exact ⟨hp, pre, post, rfl, fun x hx => by simpa using hpre x hx⟩
  · rw [hfind, List.find?_eq_none]
    constructor
    · intro h e he
      simpa using h e he
    · intro h e he
      simpa using h e he

/-- Witness for `matcher_first_match`: `boot.img.lz4` resolves to the S4
`boot.img` entry, adopting `(3, 2)`. -/
theorem matcher_first_match_witness :
    matchFirst (toLower (strBytes "boot.img.lz4")) [s4Entry1, s4Entry2] = some s4Entry2 ∧
    matchPartition [s4Entry1, s4Entry2] (strBytes "boot.img.lz4") =
      some (s4Entry2.partitionId, s4Entry2.deviceType) :=
  ⟨by decide, (matcher_first_match [s4Entry1, s4Entry2] (strBytes "boot.img.lz4")).1
    s4Entry2 (by decide)⟩

/-! ## Firmware members and the skip policy (C6)

`FirmwareItem` keeps the fields the skip policy and the PIT surfacing
consult: name, in-memory body (`item.data`), the `isLargeFile` streaming
flag, and the TAR-declared size.  The compression flags of the source are
not consulted by any claim and are omitted. -/

structure FirmwareItem where
  filename : List Nat
  data : Option (List Nat)
  isLargeFile : Bool
  actualSize : Nat
deriving DecidableEq, Repr

/-- JavaScript `String.includes(pat)`: `pat` occurs somewhere in `s`. -/
def containsSub (s pat : List Nat) : Bool :=
  match s with
  | [] => pat.isEmpty
  | _ :: xs => pat.isPrefixOf s || containsSub xs pat

/-- The three `continue` guards at the top of the transfer loop of
`uploadBinaries` (download-engine.js lines 311–327): no data source,
an empty in-memory body, or a `meta-data/` / `.zip` name. -/
def skipItem (it : FirmwareItem) : Bool :=
  (it.data.isNone && !it.isLargeFile) ||
  (match it.data with
   | some d => d.isEmpty
   | none => false) ||
  containsSub it.filename (strBytes "meta-data/") ||
  (strBytes ".zip").isSuffixOf it.filename

/-- JavaScript `String.trim()` on ASCII bytes. -/
def isWSByte (b : Nat) : Bool := b = 32 || b = 9 || b = 10 || b = 13 || b = 11 || b = 12

def trimBytes (s : List Nat) : List Nat :=
  ((s.dropWhile isWSByte).reverse.dropWhile isWSByte).reverse

def isOctalDigit (b : Nat) : Bool := 48 ≤ b && b ≤ 55

/-- `parseInt(sizeStr, 8)`: value of the longest octal-digit prefix,
`none` (NaN) when it is empty.  (TAR size fields are unsigned, so the
sign handling of `parseInt` never fires.) -/
def parseOctal? (s : List Nat) : Option Nat :=
  if (s.takeWhile isOctalDigit).isEmpty then none
  else some ((s.takeWhile isOctalDigit).foldl (fun acc d => acc * 8 + (d - 48)) 0)

/-- The header-walking loop of `parseTARData` (app.js lines 1477–1522):
512-byte headers, all-zero terminator, octal size, body `slice`, 512-byte
padding; a `.pit` member's body is stored into `firmwareData.pitData`
(the last one wins) and the member is ALSO pushed onto `items`.
`fuel` makes the recursion structural; every iteration advances the
offset by at least 512, so `data.length + 1` iterations always suffice. -/
def parseTARGo (data : List Nat) : Nat → Nat → List FirmwareItem × Option (List Nat)
  | 0, _ => ([], none)
  | fuel + 1, offset =>
    if data.length < offset + 512 then ([], none)
    else
      if ((data.drop offset).take 512).all (· = 0) then ([], none)
      else
        match parseOctal? (trimBytes (readStringBytes ((data.drop offset).take 512) 124 12)) with
        | none => parseTARGo data fuel (offset + 512)
        | some size =>
          if (trimBytes (readStringBytes ((data.drop offset).take 512) 0 100)).isEmpty then
            parseTARGo data fuel (offset + 512)
          else
            (⟨trimBytes (readStringBytes ((data.drop offset).take 512) 0 100),
                some ((data.drop (offset + 512)).take size), false, size⟩ ::
              (parseTARGo data fuel (offset + 512 + (size + 511) / 512 * 512)).1,
             if (strBytes ".pit").isSuffixOf
                 (toLower (trimBytes (readStringBytes ((data.drop offset).take 512) 0 100))) then
               match (parseTARGo data fuel (offset + 512 + (size + 511) / 512 * 512)).2 with
               | some p => some p
               | none => some ((data.drop (offset + 512)).take size)
             else (parseTARGo data fuel (offset + 512 + (size + 511) / 512 * 512)).2)

def parseTARData (data : List Nat) : List FirmwareItem × Option (List Nat) :=
  parseTARGo data (data.length + 1) 0

/-- The header-walking loop of `parseSingleTarFile` (app.js lines
372–428), for an archive without the Samsung `.md5` tail (the `.md5`
branch only truncates trailing bytes): members are indexed with `data =
null` and `isLargeFile = true` — bodies stay in the file.  At most 1000
members are collected.  There is NO `.pit` branch here. -/
def parseSingleGo (file : List Nat) : Nat → Nat → Nat → List FirmwareItem
  | 0, _, _ => []
  | fuel + 1, offset, found =>
    if offset < file.length ∧ found < 1000 then
      if file.length < offset + 512 then []
      else
        if ((file.drop offset).take 512).all (· = 0) then []
        else
          match parseOctal? (trimBytes (readStringBytes ((file.drop offset).take 512) 124 12)) with
          | none => parseSingleGo file fuel (offset + 512) found
          | some size =>
            if (trimBytes (readStringBytes ((file.drop offset).take 512) 0 100)).isEmpty then
              parseSingleGo file fuel (offset + 512) found
            else
              ⟨trimBytes (readStringBytes ((file.drop offset).take 512) 0 100),
                  none, true, size⟩ ::
                parseSingleGo file fuel (offset + 512 + (size + 511) / 512 * 512) (found + 1)
    else []

def parseSingleTarFile (file : List Nat) : List FirmwareItem :=
  parseSingleGo file (file.length + 1) 0 0

/-- A USTAR header: name at 0..99, octal size at 124..135, zeros elsewhere. -/
def tarHeader (name sizeOctal : List Nat) : List Nat :=
  name ++ List.replicate (100 - name.length) 0 ++ List.replicate 24 0 ++
    sizeOctal ++ List.replicate (12 - sizeOctal.length) 0 ++ List.replicate 376 0

/-- A one-member TAR whose member is `test.pit` with body `[1,2,3,4]`. -/
def pitTar : List Nat :=
  tarHeader (strBytes "test.pit") (strBytes "4") ++ ([1, 2, 3, 4] ++ List.replicate 508 0)

/-- A one-member TAR whose member `big.img` has size 0. -/
def zeroTar : List Nat := tarHeader (strBytes "big.img") (strBytes "0")

set_option maxRecDepth 100000 in
/-- C6 counterexample: (1) a `.pit` member becomes the embedded PIT input
but is STILL pushed onto the item list and is not skipped by the upload
loop — it IS uploaded as partition content; (2) a zero-length member
indexed by the streaming parser (`data = null`, `isLargeFile = true`) is
not skipped either. -/
theorem skip_policy_counterexample :
    parseTARData pitTar =
      ([⟨strBytes "test.pit", some [1, 2, 3, 4], false, 4⟩], some [1, 2, 3, 4]) ∧
    skipItem ⟨strBytes "test.pit", some [1, 2, 3, 4], false, 4⟩ = false ∧
    parseSingleTarFile zeroTar = [⟨strBytes "big.img", none, true, 0⟩] ∧
    skipItem ⟨strBytes "big.img", none, true, 0⟩ = false := by
  refine ⟨by decide, by decide, by decide, by decide⟩

/-- C6 (amended): the upload loop skips exactly the members with no data
source, an empty in-memory body, a name containing `meta-data/`, or a
name ending in `.zip`.  Zero-length members are skipped only on the
in-memory path (a zero-length streaming member is not skipped).  A
`.pit` member's body becomes the embedded PIT input, but the member is
not excluded from upload: whenever `parseTARData` surfaces an embedded
PIT, the very member it came from is still on the item list. -/
theorem skip_policy (it : FirmwareItem) (data : List Nat) :
    (skipItem it = true ↔
      (it.data = none ∧ it.isLargeFile = false) ∨
      it.data = some [] ∨
      containsSub it.filename (strBytes "meta-data/") = true ∨
      (strBytes ".zip").isSuffixOf it.filename = true) ∧
    (∀ p, (parseTARData data).2 = some p →
      ∃ it2 ∈ (parseTARData data).1,
        (strBytes ".pit").isSuffixOf (toLower it2.filename) = true ∧
          it2.data = some p) := by
  constructor
  · cases it with
    | mk fn d lg sz =>
      cases d with
      | none => cases lg <;> simp [skipItem]
      | some body =>
        cases body with
        | nil => simp [skipItem]
        | cons x xs => simp [skipItem]
  · have hgo : ∀ fuel offset p, (parseTARGo data fuel offset).2 = some p →
        ∃ it2 ∈ (parseTARGo data fuel offset).1,
          (strBytes ".pit").isSuffixOf (toLower it2.filename) = true ∧
            it2.data = some p := by
      intro fuel
      induction fuel with
      | zero => intro offset p hp; simp [parseTARGo] at hp
      | succ fuel ih =>
        intro offset p
        rw [parseTARGo]
        split
        · intro hp; simp at hp
        · split
          · intro hp; simp at hp
          · split
            · exact ih _ p
            · split
              · exact ih _ p
              · intro hp
                simp only at hp ⊢
                split at hp
                · split at hp
                  · simp only [Option.some.injEq] at hp
                    subst hp
                    next q hq =>
                      obtain ⟨it2, hmem, hsuf, hdata⟩ := ih _ q hq
                      exact ⟨it2, List.mem_cons_of_mem _ hmem, hsuf, hdata⟩
                  · simp only [Option.some.injEq] at hp
                    subst hp
                    refine ⟨_, List.mem_cons_self _ _, ?_, rfl⟩
                    assumption
                · obtain ⟨it2, hmem, hsuf, hdata⟩ := ih _ p hp
                  exact ⟨it2, List.mem_cons_of_mem _ hmem, hsuf, hdata⟩
    exact fun p hp => hgo _ _ p hp

set_option maxRecDepth 100000 in
/-- Witness for `skip_policy` on the concrete `.pit` archive. -/
theorem skip_policy_witness :
    (parseTARData pitTar).2 = some [1, 2, 3, 4] ∧
    ∃ it2 ∈ (parseTARData pitTar).1,
      (strBytes ".pit").isSuffixOf (toLower it2.filename) = true ∧
        it2.data = some [1, 2, 3, 4] :=
  ⟨by decide, (skip_policy ⟨[], none, false, 0⟩ pitTar).2 [1, 2, 3, 4] (by decide)⟩

/-! ## PIT receive (`DownloadEngine.receivePitData`, C4)

The device side is modelled as `reads : Nat → List Nat`, the byte string
the transport hands back for the n-th `read` call of this operation
(reads return at most the requested number of bytes, hence the `take`).
Writes are recorded structurally: the initial `(101,1,0)` request, one
`(101,2,counter)` request per loop step, and the `(101,3,0)` terminator. -/

structure PitStep where
  counter : Nat
  readSize : Nat
  chunk : List Nat
deriving DecidableEq, Repr

structure PitRecv where
  initWrite : List Nat
  steps : List PitStep
  termWrite : List Nat
  data : List Nat
deriving DecidableEq, Repr

/-- The `while (remaining > 0)` loop (download-engine.js lines 195–214):
request `(101,2,counter)`, read up to `min(500, remaining)` bytes, stop
early on an empty read (only the request is recorded then), else
accumulate and continue.  Each non-final step consumes at least one byte,
so `fuel ≥ remaining` iterations always suffice. -/
def pitLoop (reads : Nat → List Nat) : Nat → Nat → Nat → Nat → List PitStep × Nat
  | 0, _, _, remaining => ([], remaining)
  | fuel + 1, counter, readIdx, remaining =>
    if remaining = 0 then ([], 0)
    else
      if ((reads readIdx).take (min 500 remaining)).length = 0 then
        ([⟨counter, min 500 remaining, []⟩], remaining)
      else
        (⟨counter, min 500 remaining, (reads readIdx).take (min 500 remaining)⟩ ::
            (pitLoop reads fuel (counter + 1) (readIdx + 1)
              (remaining - ((reads readIdx).take (min 500 remaining)).length)).1,
          (pitLoop reads fuel (counter + 1) (readIdx + 1)
            (remaining - ((reads readIdx).take (min 500 remaining)).length)).2)

/-- `receivePitData` after the size reply has been obtained: validate the
reply, run the chunk loop, send the `(101,3,0)` terminator and read one
trailing reply, and return the concatenated data. -/
def recvPitWith (reads : Nat → List Nat) (resp : List Nat) (nextIdx : Nat) :
    Except String PitRecv :=
  if resp.length < 8 then .error "PIT request timeout"
  else
    if LEToNumber resp 0 4 ≠ 101 then .error "PIT cmd mismatch"
    else
      if LEToNumber resp 4 4 = 0 ∨ 0x100000 < LEToNumber resp 4 4 then
        .error "Invalid PIT size"
      else
        .ok { initWrite := cmdPacket 101 1 0
              steps := (pitLoop reads (LEToNumber resp 4 4) 0 nextIdx
                (LEToNumber resp 4 4)).1
              termWrite := cmdPacket 101 3 0
              data := ((pitLoop reads (LEToNumber resp 4 4) 0 nextIdx
                (LEToNumber resp 4 4)).1.map PitStep.chunk).flatten }

/-- `receivePitData`: the `(101,1,0)` size request is answered with
`read(64, 60)`, retried once if shorter than 8 bytes. -/
def recvPit (reads : Nat → List Nat) : Except String PitRecv :=
  if 8 ≤ ((reads 0).take 64).length then recvPitWith reads ((reads 0).take 64) 1
  else recvPitWith reads ((reads 1).take 64) 2

theorem pitLoop_spec (reads : Nat → List Nat) : ∀ fuel counter readIdx remaining,
    remaining ≤ fuel →
    (((pitLoop reads fuel counter readIdx remaining).1.map PitStep.chunk).flatten).length +
        (pitLoop reads fuel counter readIdx remaining).2 = remaining ∧
    (∀ s ∈ (pitLoop reads fuel counter readIdx remaining).1,
      s.readSize ≤ 500 ∧ s.chunk.length ≤ s.readSize) ∧
    (pitLoop reads fuel counter readIdx remaining).1.map PitStep.counter =
      List.range' counter (pitLoop reads fuel counter readIdx remaining).1.length ∧
    ((∀ s ∈ (pitLoop reads fuel counter readIdx remaining).1,
        s.chunk.length = s.readSize) →
      (pitLoop reads fuel counter readIdx remaining).2 = 0) := by
  intro fuel
  induction fuel with
  | zero =>
    intro counter readIdx remaining hrem
    have h0 : remaining = 0 := by omega
    subst h0
    simp [pitLoop]
  | succ fuel ih =>
    intro counter readIdx remaining hrem
    rw [pitLoop]
    by_cases h0 : remaining = 0
    · subst h0
      simp
    · rw [if_neg h0]
      by_cases hempty : ((reads readIdx).take (min 500 remaining)).length = 0
      · rw [if_pos hempty]
        refine ⟨by simp, ?_, by simp, ?_⟩
        · intro s hs
          simp only [List.mem_singleton] at hs
          subst hs
          simp only [List.length_nil]
          omega
        · intro hfull
          have := hfull ⟨counter, min 500 remaining, []⟩ (by simp)
          simp only [List.length_nil] at this
          omega
      · rw [if_neg hempty]
        have hlen : ((reads readIdx).take (min 500 remaining)).length ≤ min 500 remaining :=
          le_trans (List.length_take_le _ _) (le_refl _)
        obtain ⟨ihsum, ihsz, ihctr, ihfull⟩ :=
          ih (counter + 1) (readIdx + 1)
            (remaining - ((reads readIdx).take (min 500 remaining)).length) (by omega)
        refine ⟨?_, ?_, ?_, ?_⟩
        · simp only [List.map_cons, List.flatten_cons, List.length_append]
          omega
        · intro s hs
          simp only [List.mem_cons] at hs
          rcases hs with rfl | hs
          · refine ⟨?_, ?_⟩
            · show min 500 remaining ≤ 500
              omega
            · show ((reads readIdx).take (min 500 remaining)).length ≤ min 500 remaining
              exact hlen
          · exact ihsz s hs
        · simp only [List.map_cons, List.length_cons, ihctr, List.range'_succ]
        · intro hfull
          exact ihfull fun s hs => hfull s (List.mem_cons_of_mem _ hs)

/-- C4 (amended): `receivePitData` fails whenever the (possibly once
retried) size reply is shorter than 8 bytes, echoes a command other than
101, or reports `pit_size = 0` or `pit_size > 0x100000`.  Otherwise it
succeeds; the chunk loop issues `(101,2,counter)` requests with counters
0, 1, 2, … reading at most 500 bytes each, a `(101,3,0)` terminator
follows, and the returned buffer holds AT MOST `pit_size` bytes — exactly
`pit_size` whenever the device answers every chunk request in full, but
possibly fewer: a short or empty read ends the loop with only a logged
warning, and the undersized buffer is still returned as success. -/
theorem receive_pit_props (reads : Nat → List Nat) :
    (recvPit reads = if 8 ≤ ((reads 0).take 64).length
        then recvPitWith reads ((reads 0).take 64) 1
        else recvPitWith reads ((reads 1).take 64) 2) ∧
    ∀ resp nextIdx,
      (resp.length < 8 → recvPitWith reads resp nextIdx = .error "PIT request timeout") ∧
      (8 ≤ resp.length → LEToNumber resp 0 4 = 101 →
        (LEToNumber resp 4 4 = 0 ∨ 0x100000 < LEToNumber resp 4 4) →
        recvPitWith reads resp nextIdx = .error "Invalid PIT size") ∧
      (8 ≤ resp.length → LEToNumber resp 0 4 = 101 →
        ¬ (LEToNumber resp 4 4 = 0 ∨ 0x100000 < LEToNumber resp 4 4) →
        ∃ r, recvPitWith reads resp nextIdx = .ok r ∧
          r.initWrite = cmdPacket 101 1 0 ∧
          r.termWrite = cmdPacket 101 3 0 ∧
          r.data.length ≤ LEToNumber resp 4 4 ∧
          (∀ s ∈ r.steps, s.readSize ≤ 500 ∧ s.chunk.length ≤ s.readSize) ∧
          r.steps.map PitStep.counter = List.range' 0 r.steps.length ∧
          ((∀ s ∈ r.steps, s.chunk.length = s.readSize) →
            r.data.length = LEToNumber resp 4 4)) := by
  refine ⟨rfl, ?_⟩
  intro resp nextIdx
  refine ⟨?_, ?_, ?_⟩
  · intro h
    rw [recvPitWith, if_pos h]
  · intro h8 hcmd hbad
    rw [recvPitWith, if_neg (by omega), if_neg (by simp [hcmd]), if_pos hbad]
  · intro h8 hcmd hok
    rw [recvPitWith, if_neg (by omega), if_neg (by simp [hcmd]), if_neg hok]
    obtain ⟨hsum, hsz, hctr, hfull⟩ := pitLoop_spec reads (LEToNumber resp 4 4) 0
      nextIdx (LEToNumber resp 4 4) (le_refl _)
    refine ⟨_, rfl, rfl, rfl, ?_, ?_, ?_, ?_⟩
    · show ((pitLoop reads (LEToNumber resp 4 4) 0 nextIdx
        (LEToNumber resp 4 4)).1.map PitStep.chunk).flatten.length ≤ LEToNumber resp 4 4
      omega
    · show ∀ s ∈ (pitLoop reads (LEToNumber resp 4 4) 0 nextIdx
        (LEToNumber resp 4 4)).1, s.readSize ≤ 500 ∧ s.chunk.length ≤ s.readSize
      exact hsz
    · show (pitLoop reads (LEToNumber resp 4 4) 0 nextIdx
          (LEToNumber resp 4 4)).1.map PitStep.counter =
        List.range' 0 (pitLoop reads (LEToNumber resp 4 4) 0 nextIdx
          (LEToNumber resp 4 4)).1.length
      exact hctr
    · intro h
      have h2 := hfull h
      show ((pitLoop reads (LEToNumber resp 4 4) 0 nextIdx
        (LEToNumber resp 4 4)).1.map PitStep.chunk).flatten.length = LEToNumber resp 4 4
      omega

/-- A device whose size reply reports `pit_size = 8` and whose first data
read returns no bytes. -/
def emptyChunkReads : Nat → List Nat :=
  fun i => if i = 0 then numberToLE 101 4 ++ numberToLE 8 4 else []

/-- C4 counterexample: the device reports `pit_size = 8` but returns an
empty first chunk.  `receivePitData` SUCCEEDS — returning a 0-byte buffer
(`data = []`), not a buffer of length `pit_size`: a short read only ends
the loop with a logged warning. -/
theorem receive_pit_counterexample :
    recvPit emptyChunkReads =
      .ok ⟨cmdPacket 101 1 0, [⟨0, 8, []⟩], cmdPacket 101 3 0, []⟩ ∧
    LEToNumber ((emptyChunkReads 0).take 64) 4 4 = 8 := by
  exact ⟨by rfl, by decide⟩

/-- A device that reports `pit_size = 8` and then delivers all 8 bytes. -/
def fullChunkReads : Nat → List Nat :=
  fun i => if i = 0 then numberToLE 101 4 ++ numberToLE 8 4 else List.replicate 8 7

/-- Witness for `receive_pit_props` on a fully-delivering device. -/
theorem receive_pit_witness :
    (8 ≤ ((fullChunkReads 0).take 64).length ∧
      LEToNumber ((fullChunkReads 0).take 64) 0 4 = 101 ∧
      ¬ (LEToNumber ((fullChunkReads 0).take 64) 4 4 = 0 ∨
          0x100000 < LEToNumber ((fullChunkReads 0).take 64) 4 4)) ∧
    (recvPitWith fullChunkReads ((fullChunkReads 0).take 64) 1).isOk = true := by
  refine ⟨⟨by decide, by decide, by decide⟩, ?_⟩
  obtain ⟨r, hr, -⟩ := ((receive_pit_props fullChunkReads).2
    ((fullChunkReads 0).take 64) 1).2.2 (by decide) (by decide) (by decide)
  rw [hr]
  rfl

/-! ## LZ4 block decoder (`StreamingLZ4Decoder.decompressBlock`, C8)

JavaScript `Uint8Array` semantics are modelled explicitly: the
destination is a function `Nat → Nat` starting at all zeros; writes at
indices `≥ maxSize` are silently dropped, reads outside the buffer (and
`src` reads past the end) yield `undefined`, which is stored as 0; a
length accumulator poisoned by an out-of-range read becomes `NaN`
(modelled as `Option.none`), which makes the subsequent copy loop run
zero times. -/

/-- The LSIC extension loop `do { len = src[srcPos++]; length += len }
while (len === 255)`.  An out-of-range read yields NaN (`none`) and ends
the loop (`undefined !== 255`).  `fuel = src.length + 1` always suffices:
the loop ends at the first byte that is not 255, or one step past the
end of `src`. -/
def extLen (src : List Nat) : Nat → Nat → Option Nat → Option Nat × Nat
  | 0, srcPos, acc => (acc, srcPos)
  | fuel + 1, srcPos, acc =>
    match src.get? srcPos with
    | none => (none, srcPos + 1)
    | some l =>
      if l = 255 then extLen src fuel (srcPos + 1) (acc.map (· + l))
      else (acc.map (· + l), srcPos + 1)

/-- Length nibble plus optional LSIC extension. -/
def readLenExt (src : List Nat) (base : Nat) (ext : Bool) (sp : Nat) : Option Nat × Nat :=
  if ext then extLen src (src.length + 1) sp (some base) else (some base, sp)

/-- The literal copy loop `dst[dstPos++] = src[srcPos++]`, `L` times. -/
def litCopy (src : List Nat) (maxSize : Nat) : Nat → Nat → Nat → (Nat → Nat) →
    (Nat → Nat) × Nat × Nat
  | 0, srcPos, dstPos, dst => (dst, srcPos, dstPos)
  | l + 1, srcPos, dstPos, dst =>
    litCopy src maxSize l (srcPos + 1) (dstPos + 1)
      (fun j => if dstPos < maxSize ∧ j = dstPos then src.getD srcPos 0 else dst j)

/-- The (possibly overlapping) match copy loop
`dst[dstPos++] = dst[matchPos++]`, `M` times. -/
def matchCopy (maxSize : Nat) : Nat → Nat → Nat → (Nat → Nat) → (Nat → Nat) × Nat
  | 0, dstPos, _, dst => (dst, dstPos)
  | m + 1, dstPos, matchPos, dst =>
    matchCopy maxSize m (dstPos + 1) (matchPos + 1)
      (fun j => if dstPos < maxSize ∧ j = dstPos then
        (if matchPos < maxSize then dst matchPos else 0) else dst j)

/-- `if (literalLength > 0) copy literals` — a NaN length copies nothing. -/
def litPhase (src : List Nat) (maxSize : Nat) (lit : Option Nat) (sp dp : Nat)
    (dst : Nat → Nat) : (Nat → Nat) × Nat × Nat :=
  match lit with
  | none => (dst, sp, dp)
  | some l => if 0 < l then litCopy src maxSize l sp dp dst else (dst, sp, dp)

/-- The match copy — a NaN length copies nothing. -/
def matPhase (maxSize : Nat) (mat : Option Nat) (dp matchPos : Nat)
    (dst : Nat → Nat) : (Nat → Nat) × Nat :=
  match mat with
  | none => (dst, dp)
  | some m => matchCopy maxSize m dp matchPos dst

/-- The `while (srcPos < src.length)` loop of `decompressBlock`.  Every
iteration advances `srcPos` by at least one, so `fuel = src.length`
iterations always suffice.  Each match operation that passes the two
checks (`offset === 0` throws, `matchPos < 0` throws) is recorded as the
event `(offset, dstPos-at-the-time)`. -/
def blockLoop (src : List Nat) (maxSize : Nat) :
    Nat → Nat → Nat → (Nat → Nat) → List (Nat × Nat) →
      Except String (Nat × (Nat → Nat) × List (Nat × Nat))
  | 0, _, dstPos, dst, evs => .ok (dstPos, dst, evs)
  | fuel + 1, srcPos, dstPos, dst, evs =>
    if src.length ≤ srcPos then .ok (dstPos, dst, evs)
    else
      match litPhase src maxSize
          (readLenExt src (src.getD srcPos 0 / 16)
            (src.getD srcPos 0 / 16 == 15) (srcPos + 1)).1
          (readLenExt src (src.getD srcPos 0 / 16)
            (src.getD srcPos 0 / 16 == 15) (srcPos + 1)).2
          dstPos dst with
      | (dst1, sp2, dp1) =>
        if src.length ≤ sp2 then .ok (dp1, dst1, evs)
        else
          if src.getD sp2 0 + src.getD (sp2 + 1) 0 * 256 = 0 then
            .error "Invalid offset (0)"
          else
            match readLenExt src (src.getD srcPos 0 % 16 + 4)
                (src.getD srcPos 0 % 16 == 15) (sp2 + 2) with
            | (mat, sp4) =>
              if dp1 < src.getD sp2 0 + src.getD (sp2 + 1) 0 * 256 then
                .error "Invalid match position"
              else
                match matPhase maxSize mat dp1
                    (dp1 - (src.getD sp2 0 + src.getD (sp2 + 1) 0 * 256)) dst1 with
                | (dst2, dp2) =>
                  blockLoop src maxSize fuel sp4 dp2 dst2
                    (evs ++ [(src.getD sp2 0 + src.getD (sp2 + 1) 0 * 256, dp1)])

/-- `decompressBlock(src, maxSize)`: run the loop and return
`dst.slice(0, dstPos)` — whose length `Array.slice` CLAMPS to the buffer
length `maxSize` — together with the recorded match events. -/
def decompressBlock (src : List Nat) (maxSize : Nat) :
    Except String (List Nat × List (Nat × Nat)) :=
  match blockLoop src maxSize src.length 0 0 (fun _ => 0) [] with
  | .error e => .error e
  | .ok (dstPos, dst, _evs) => .ok ((List.range (min dstPos maxSize)).map dst, _evs)

theorem blockLoop_events (src : List Nat) (maxSize : Nat) : ∀ fuel srcPos dstPos dst evs res,
    blockLoop src maxSize fuel srcPos dstPos dst evs = .ok res →
    (∀ p ∈ evs, 0 < p.1 ∧ p.1 ≤ p.2) →
    ∀ p ∈ res.2.2, 0 < p.1 ∧ p.1 ≤ p.2 := by
  intro fuel
  induction fuel with
  | zero =>
    intro srcPos dstPos dst evs res h hevs
    rw [blockLoop] at h
    injection h with h2
    subst h2
    exact hevs
  | succ fuel ih =>
    intro srcPos dstPos dst evs res h hevs
    rw [blockLoop] at h
    split at h
    · injection h with h2
      subst h2
      exact hevs
    · split at h
      next dst1 sp2 dp1 heq =>
        split at h
        · injection h with h2
          subst h2
          exact hevs
        · split at h
          · simp at h
          · split at h
            next mat sp4 heq2 =>
              split at h
              · simp at h
              · split at h
                next dst2 dp2 heq3 =>
                  refine ih _ _ _ _ _ h ?_
                  intro p hp
                  rcases List.mem_append.mp hp with hp | hp
                  · exact hevs p hp
                  · simp only [List.mem_singleton] at hp
                    subst hp
                    exact ⟨by omega, by omega⟩

/-- C8 (amended): whenever the block decoder returns without error, the
output length is at most the frame's maximum block size, and every match
copy it performed had `0 < offset ≤ current_output_position` (offsets 0
and over-long offsets raise errors).  However, output overflowing
`maxSize` does NOT raise an error: writes past the buffer are silently
dropped and the result is clamped to `maxSize` bytes. -/
theorem lz4_block_safety (src : List Nat) (maxSize : Nat) (out : List Nat)
    (evs : List (Nat × Nat)) (h : decompressBlock src maxSize = .ok (out, evs)) :
    out.length ≤ maxSize ∧ ∀ p ∈ evs, 0 < p.1 ∧ p.1 ≤ p.2 := by
  rw [decompressBlock] at h
  rcases hb : blockLoop src maxSize src.length 0 0 (fun _ => 0) [] with e | ⟨dstPos, dst, evs2⟩
  · rw [hb] at h
    exact absurd h (by simp)
  · rw [hb] at h
    simp only [Except.ok.injEq, Prod.mk.injEq] at h
    obtain ⟨rfl, rfl⟩ := h
    constructor
    · simp only [List.length_map, List.length_range]
      omega
    · have := blockLoop_events src maxSize src.length 0 0 (fun _ => 0) [] _ hb (by simp)
      exact this

/-- C8 counterexample: a block whose single token demands five literal
bytes into a buffer of size 4.  The decoder does NOT fail: the fifth
write is silently dropped and the output is clamped to the buffer — the
claim that inputs violating the output bound fail with an error is
false. -/
theorem lz4_overflow_counterexample :
    decompressBlock [0x50, 1, 2, 3, 4, 5] 4 = .ok ([1, 2, 3, 4], []) := by
  rfl

/-- Witness for `lz4_block_safety`: a one-literal block with one match. -/
theorem lz4_block_safety_witness :
    decompressBlock [0x14, 9, 1, 0] 4 = .ok ([9, 9, 9, 9], [(1, 1)]) ∧
    ([9, 9, 9, 9] : List Nat).length ≤ 4 :=
  ⟨by rfl, (lz4_block_safety [0x14, 9, 1, 0] 4 [9, 9, 9, 9] [(1, 1)] (by rfl)).1⟩

end PyOdinWeb
